import Mathlib

/-!
Verification of the GhostFAT virtual-FAT16 generator and UF2 write-ingestion
state machine (`src/main/ghostfat.c`).

The C code is shallowly embedded: machine integers become `Nat` with explicit
`% 2^w` where a narrowing store occurs, byte buffers become functions
`ℕ → ℕ` (byte index to byte value), packed structs become Lean structures,
and the imperative write path becomes a state-transformer on `WriteState`.
-/

namespace GhostFAT

/-! ## Geometry constants (from the `#define` block of ghostfat.c) -/

def BPB_SECTOR_SIZE : ℕ := 512
def BPB_SECTORS_PER_CLUSTER : ℕ := 1
def BPB_RESERVED_SECTORS : ℕ := 1
def BPB_NUMBER_OF_FATS : ℕ := 2
def BPB_ROOT_DIR_ENTRIES : ℕ := 64
def BPB_MEDIA_DESCRIPTOR_BYTE : ℕ := 0xf8
def FAT_ENTRY_SIZE : ℕ := 2
def FAT_ENTRIES_PER_SECTOR : ℕ := BPB_SECTOR_SIZE / FAT_ENTRY_SIZE
def DIRENTRIES_PER_SECTOR : ℕ := BPB_SECTOR_SIZE / 32
def ROOT_DIR_SECTOR_COUNT : ℕ := BPB_ROOT_DIR_ENTRIES / DIRENTRIES_PER_SECTOR

/-- `BPB_SECTORS_PER_FAT`, parametric in `BPB_TOTAL_SECTORS` (the configured
`CFG_UF2_NUM_BLOCKS`, which is not in src/). -/
def BPB_SECTORS_PER_FAT (totalSectors : ℕ) : ℕ :=
  totalSectors / FAT_ENTRIES_PER_SECTOR +
    (if totalSectors % FAT_ENTRIES_PER_SECTOR ≠ 0 then 1 else 0)

def FS_START_FAT0_SECTOR : ℕ := BPB_RESERVED_SECTORS

def FS_START_FAT1_SECTOR (totalSectors : ℕ) : ℕ :=
  FS_START_FAT0_SECTOR + BPB_SECTORS_PER_FAT totalSectors

def FS_START_ROOTDIR_SECTOR (totalSectors : ℕ) : ℕ :=
  FS_START_FAT1_SECTOR totalSectors + BPB_SECTORS_PER_FAT totalSectors

def FS_START_CLUSTERS_SECTOR (totalSectors : ℕ) : ℕ :=
  FS_START_ROOTDIR_SECTOR totalSectors + ROOT_DIR_SECTOR_COUNT

def NUM_SECTORS_IN_DATA_REGION (totalSectors : ℕ) : ℕ :=
  totalSectors - BPB_RESERVED_SECTORS -
    BPB_NUMBER_OF_FATS * BPB_SECTORS_PER_FAT totalSectors - ROOT_DIR_SECTOR_COUNT

def UF2_FIRMWARE_BYTES_PER_SECTOR : ℕ := 256

def USER_FLASH_START : ℕ := 0

/-! ## UF2 wire-format constants

Modelled from the spec: the packet layout lives in `uf2.h`, which is not under
src/; the spec (§3, §6) fixes the two start magics, the end magic, and the
"family id present" / "do not flash" flag bits.  The numeric values are the
standard UF2 ones. -/

def UF2_MAGIC_START0 : ℕ := 0x0a324655
def UF2_MAGIC_START1 : ℕ := 0x9e5d5157
def UF2_MAGIC_END : ℕ := 0x0ab16f30
def UF2_FLAG_FAMILYID : ℕ := 0x00002000
def UF2_FLAG_NOFLASH : ℕ := 0x00000001

/-- The `UF2_Block` packed struct (field order as in the 512-byte packet):
eight 32-bit header words, a 476-byte payload area, and a trailing magic. -/
structure UF2Block where
  magicStart0 : ℕ
  magicStart1 : ℕ
  flags : ℕ
  targetAddr : ℕ
  payloadSize : ℕ
  blockNo : ℕ
  numBlocks : ℕ
  familyID : ℕ
  data : List ℕ
  magicEnd : ℕ
deriving DecidableEq, Repr

/-- `WriteState` (from `uf2.h`, modelled from the spec §3: a learned
total-block-count, a byte-array bitmask of blocks seen, and a running count of
unique blocks absorbed).  `writtenMask` maps a byte position to the byte's
value, mirroring the C `uint8_t writtenMask[...]`. -/
structure WriteState where
  numBlocks : ℕ
  numWritten : ℕ
  writtenMask : ℕ → ℕ

/-- `is_uf2_block` from ghostfat.c. -/
def is_uf2_block (bl : UF2Block) : Bool :=
  (bl.magicStart0 == UF2_MAGIC_START0) &&
  (bl.magicStart1 == UF2_MAGIC_START1) &&
  (bl.magicEnd == UF2_MAGIC_END) &&
  (bl.flags &&& UF2_FLAG_FAMILYID != 0) &&
  (bl.flags &&& UF2_FLAG_NOFLASH == 0)

/-- The `state->numBlocks` update of `uf2_write_block` (run only when
`bl->numBlocks` is nonzero).  `maxBlocks` is the configured `MAX_BLOCKS`
(modelled from the spec: the maximum supported block count, a build-time
configuration value from `uf2.h`). -/
def updateNumBlocks (maxBlocks blNumBlocks : ℕ) (s : WriteState) : WriteState :=
  if s.numBlocks ≠ blNumBlocks then
    if maxBlocks ≤ blNumBlocks ∨ s.numBlocks ≠ 0 then
      { s with numBlocks := 0xffffffff }
    else
      { s with numBlocks := blNumBlocks }
  else s

/-- The written-mask / counter update of `uf2_write_block` (run only when
`bl->numBlocks` is nonzero): if the block index is within `MAX_BLOCKS`,
compute the bit `1 << (blockNo % 8)` of byte `blockNo / 8`, and set it and
bump `numWritten` only when it was clear. -/
def markWritten (maxBlocks blockNo : ℕ) (s : WriteState) : WriteState :=
  if blockNo < maxBlocks then
    let mask : ℕ := 1 <<< (blockNo % 8)
    let pos : ℕ := blockNo / 8
    if s.writtenMask pos &&& mask = 0 then
      { s with
        writtenMask := Function.update s.writtenMask pos (s.writtenMask pos ||| mask),
        numWritten := s.numWritten + 1 }
    else s
  else s

/-- `uf2_write_block` from ghostfat.c, as a function from the incoming block
and the ingestion state to the returned `int` and the new state.  The source's
`if (bl->familyID == CFG_UF2_FAMILY_ID) { }` has an empty body and therefore
no effect; the flash-payload application is a disabled (commented-out) flush
call, so the state transition is exactly the bookkeeping below. -/
def uf2_write_block (maxBlocks : ℕ) (bl : UF2Block) (s : WriteState) :
    Int × WriteState :=
  if is_uf2_block bl then
    if bl.numBlocks ≠ 0 then
      (512, markWritten maxBlocks bl.blockNo (updateNumBlocks maxBlocks bl.numBlocks s))
    else
      (512, s)
  else
    (-1, s)

/-- Folding a list of incoming 512-byte blocks through `uf2_write_block` in
arrival order. -/
def runWrites (maxBlocks : ℕ) (l : List UF2Block) (s : WriteState) : WriteState :=
  l.foldl (fun st b => (uf2_write_block maxBlocks b st).2) s

/-- Observer: bit `n % 8` of mask byte `n / 8`, i.e. "block `n` has been
seen". -/
def maskBit (s : WriteState) (n : ℕ) : Bool :=
  (s.writtenMask (n / 8)).testBit (n % 8)

/-! ## Bit-level helper lemmas -/

theorem and_shift_eq_zero_iff (x r : ℕ) :
    x &&& (1 <<< r) = 0 ↔ x.testBit r = false := by
  rw [Nat.shiftLeft_eq, one_mul, Nat.and_two_pow]
  cases h : x.testBit r
  · simp
  · simp [Nat.pow_eq_zero]

theorem testBit_true_of_and_ne (x r : ℕ) (h : ¬x &&& (1 <<< r) = 0) :
    x.testBit r = true := by
  cases hb : x.testBit r
  · exact absurd ((and_shift_eq_zero_iff x r).mpr hb) h
  · rfl

theorem testBit_or_shift (x r j : ℕ) :
    (x ||| (1 <<< r)).testBit j = (x.testBit j || decide (j = r)) := by
  rw [Nat.testBit_or, Nat.shiftLeft_eq, one_mul, Nat.testBit_two_pow]
  by_cases h : j = r
  · simp [h]
  · simp [h, Ne.symm h]

/-! ## Step lemmas for the write path -/

theorem updateNumBlocks_writtenMask (maxBlocks t : ℕ) (s : WriteState) :
    (updateNumBlocks maxBlocks t s).writtenMask = s.writtenMask := by
  unfold updateNumBlocks
  split <;> [skip; rfl]
  split <;> rfl

theorem updateNumBlocks_numWritten (maxBlocks t : ℕ) (s : WriteState) :
    (updateNumBlocks maxBlocks t s).numWritten = s.numWritten := by
  unfold updateNumBlocks
  split <;> [skip; rfl]
  split <;> rfl

theorem updateNumBlocks_maskBit (maxBlocks t : ℕ) (s : WriteState) (n : ℕ) :
    maskBit (updateNumBlocks maxBlocks t s) n = maskBit s n := by
  unfold maskBit
  rw [updateNumBlocks_writtenMask]

theorem markWritten_numBlocks (maxBlocks bn : ℕ) (s : WriteState) :
    (markWritten maxBlocks bn s).numBlocks = s.numBlocks := by
  by_cases hlt : bn < maxBlocks
  · by_cases hclr : s.writtenMask (bn / 8) &&& (1 <<< (bn % 8)) = 0 <;>
      simp [markWritten, hlt, hclr]
  · simp [markWritten, hlt]

/-- Effect of one mask update on an arbitrary bit of an arbitrary mask byte. -/
theorem markWritten_mask_testBit (maxBlocks bn : ℕ) (s : WriteState) (pos j : ℕ) :
    ((markWritten maxBlocks bn s).writtenMask pos).testBit j =
      (((s.writtenMask pos).testBit j) ||
        decide (bn < maxBlocks ∧ pos = bn / 8 ∧ j = bn % 8)) := by
  by_cases hlt : bn < maxBlocks
  · by_cases hclr : s.writtenMask (bn / 8) &&& (1 <<< (bn % 8)) = 0
    · have hmw : (markWritten maxBlocks bn s).writtenMask =
          Function.update s.writtenMask (bn / 8)
            (s.writtenMask (bn / 8) ||| (1 <<< (bn % 8))) := by
        simp [markWritten, hlt, hclr]
      rw [hmw]
      by_cases hpos : pos = bn / 8
      · subst hpos
        rw [Function.update_same, testBit_or_shift]
        by_cases hj : j = bn % 8 <;> simp [hj, hlt]
      · rw [Function.update_noteq hpos]
        simp [hpos]
    · have hmw : markWritten maxBlocks bn s = s := by
        simp [markWritten, hlt, hclr]
      rw [hmw]
      have hset := testBit_true_of_and_ne _ _ hclr
      by_cases hpos : pos = bn / 8
      · by_cases hj : j = bn % 8
        · subst hpos; subst hj
          simp [hset, hlt]
        · simp [hj]
      · simp [hpos]
  · have hmw : markWritten maxBlocks bn s = s := by simp [markWritten, hlt]
    rw [hmw]
    simp [hlt]

theorem markWritten_maskBit (maxBlocks bn : ℕ) (s : WriteState) (n : ℕ) :
    maskBit (markWritten maxBlocks bn s) n =
      (maskBit s n || decide (bn < maxBlocks ∧ n = bn)) := by
  unfold maskBit
  rw [markWritten_mask_testBit]
  congr 1
  simp only [decide_eq_decide]
  omega

theorem markWritten_numWritten (maxBlocks bn : ℕ) (s : WriteState) :
    (markWritten maxBlocks bn s).numWritten =
      s.numWritten + (if bn < maxBlocks ∧ maskBit s bn = false then 1 else 0) := by
  unfold maskBit
  by_cases hlt : bn < maxBlocks
  · by_cases hclr : s.writtenMask (bn / 8) &&& (1 <<< (bn % 8)) = 0
    · have hb := (and_shift_eq_zero_iff _ _).mp hclr
      simp [markWritten, hlt, hclr, hb]
    · have hb := testBit_true_of_and_ne _ _ hclr
      simp [markWritten, hlt, hclr, hb]
  · simp [markWritten, hlt]

/-- After a mask update for block `bn < maxBlocks`, bit `bn` is set. -/
theorem markWritten_maskBit_self (maxBlocks bn : ℕ) (s : WriteState)
    (h : bn < maxBlocks) :
    maskBit (markWritten maxBlocks bn s) bn = true := by
  rw [markWritten_maskBit]
  simp [h]

/-- When the block's bit is already set, the mask/counter update is a no-op. -/
theorem markWritten_eq_of_maskBit_true (maxBlocks bn : ℕ) (s : WriteState)
    (h : maskBit s bn = true) : markWritten maxBlocks bn s = s := by
  unfold maskBit at h
  by_cases hlt : bn < maxBlocks
  · have hne : ¬s.writtenMask (bn / 8) &&& (1 <<< (bn % 8)) = 0 := by
      rw [and_shift_eq_zero_iff]
      simp [h]
    simp [markWritten, hlt, hne]
  · simp [markWritten, hlt]

/-- When the block index is out of range, the mask/counter update is a
no-op. -/
theorem markWritten_eq_of_ge (maxBlocks bn : ℕ) (s : WriteState)
    (h : ¬bn < maxBlocks) : markWritten maxBlocks bn s = s := by
  simp [markWritten, h]

/-- When the block's bit is clear and its index is in range, the update sets
exactly that bit and bumps the counter. -/
theorem markWritten_eq_of_maskBit_false (maxBlocks bn : ℕ) (s : WriteState)
    (hlt : bn < maxBlocks) (h : maskBit s bn = false) :
    markWritten maxBlocks bn s =
      { s with
        writtenMask := Function.update s.writtenMask (bn / 8)
          (s.writtenMask (bn / 8) ||| (1 <<< (bn % 8))),
        numWritten := s.numWritten + 1 } := by
  unfold maskBit at h
  have hz : s.writtenMask (bn / 8) &&& (1 <<< (bn % 8)) = 0 :=
    (and_shift_eq_zero_iff _ _).mpr h
  simp [markWritten, hlt, hz]

/-! ## C5, C9, C10: acceptance and rejection behaviour -/

/-- Sample concrete states and blocks used by witnesses and counterexamples. -/
def freshState : WriteState :=
  { numBlocks := 0, numWritten := 0, writtenMask := fun _ => 0 }

def validBlock : UF2Block :=
  { magicStart0 := UF2_MAGIC_START0, magicStart1 := UF2_MAGIC_START1,
    flags := UF2_FLAG_FAMILYID, targetAddr := 0, payloadSize := 256,
    blockNo := 0, numBlocks := 2, familyID := 0x1c5f21b0,
    data := [], magicEnd := UF2_MAGIC_END }

def badBlock : UF2Block :=
  { magicStart0 := 0, magicStart1 := 0, flags := 0, targetAddr := 0,
    payloadSize := 0, blockNo := 0, numBlocks := 0, familyID := 0,
    data := [], magicEnd := 0 }

/-- C5: a 512-byte input block that fails any of the start-magic, end-magic
or flag checks is rejected with the sentinel `-1`, and the ingestion state
(`numBlocks`, `numWritten`, `writtenMask`) is returned byte-for-byte
unchanged. -/
theorem write_reject_state_unchanged (maxBlocks : ℕ) (bl : UF2Block) (s : WriteState)
    (h : bl.magicStart0 ≠ UF2_MAGIC_START0 ∨ bl.magicStart1 ≠ UF2_MAGIC_START1 ∨
         bl.magicEnd ≠ UF2_MAGIC_END ∨ bl.flags &&& UF2_FLAG_FAMILYID = 0 ∨
         bl.flags &&& UF2_FLAG_NOFLASH ≠ 0) :
    uf2_write_block maxBlocks bl s = (-1, s) := by
  have hv : is_uf2_block bl = false := by
    unfold is_uf2_block
    rcases h with h | h | h | h | h <;> simp [h]
  simp [uf2_write_block, hv]

/-- Witness for C5 at a concrete all-zero block. -/
theorem write_reject_state_unchanged_witness :
    uf2_write_block 8 badBlock freshState = (-1, freshState) :=
  write_reject_state_unchanged 8 badBlock freshState (Or.inl (by decide))

/-- C9: every block that passes upload-packet validation is answered with the
accepted result `512` (never the retry-later result `0`), regardless of its
index, its declared total, and whether completion fired. -/
theorem write_accept_returns_512 (maxBlocks : ℕ) (bl : UF2Block) (s : WriteState)
    (h : is_uf2_block bl = true) :
    (uf2_write_block maxBlocks bl s).1 = 512 := by
  by_cases hT : bl.numBlocks = 0 <;> simp [uf2_write_block, h, hT]

/-- Witness for C9 at a concrete valid block. -/
theorem write_accept_returns_512_witness :
    (uf2_write_block 8 validBlock freshState).1 = 512 :=
  write_accept_returns_512 8 validBlock freshState (by decide)

/-- C10: acceptance does not depend on the family identifier's value.  A block
with both start magics, the end magic, the family-id-present flag set and the
no-flash flag clear is accepted, and the whole result (return code and folded
state) is invariant under replacing its `familyID` by any value whatsoever:
only the presence flag is checked, never the value. -/
theorem familyid_value_ignored (maxBlocks : ℕ) (bl : UF2Block) (s : WriteState)
    (h0 : bl.magicStart0 = UF2_MAGIC_START0) (h1 : bl.magicStart1 = UF2_MAGIC_START1)
    (h2 : bl.magicEnd = UF2_MAGIC_END) (h3 : bl.flags &&& UF2_FLAG_FAMILYID ≠ 0)
    (h4 : bl.flags &&& UF2_FLAG_NOFLASH = 0) :
    (uf2_write_block maxBlocks bl s).1 = 512 ∧
    (bl.numBlocks ≠ 0 → bl.blockNo < maxBlocks →
      maskBit (uf2_write_block maxBlocks bl s).2 bl.blockNo = true) ∧
    ∀ fid : ℕ,
      uf2_write_block maxBlocks { bl with familyID := fid } s =
        uf2_write_block maxBlocks bl s := by
  have hv : is_uf2_block bl = true := by
    simp [is_uf2_block, h0, h1, h2, h3, h4]
  refine ⟨?_, ?_, ?_⟩
  · by_cases hT : bl.numBlocks = 0 <;> simp [uf2_write_block, hv, hT]
  · intro hT hbn
    simp only [uf2_write_block, hv, if_true, hT, if_neg (not_not_intro hT)]
    simp only [if_pos hT]
    exact markWritten_maskBit_self maxBlocks bl.blockNo _ hbn
  · intro fid
    have hv' : is_uf2_block { bl with familyID := fid } = true := by
      simp [is_uf2_block, h0, h1, h2, h3, h4]
    simp [uf2_write_block, hv, hv']

/-- Witness for C10: a concrete valid block whose familyID is unrelated to
any configured family identifier. -/
theorem familyid_value_ignored_witness :
    (uf2_write_block 8 validBlock freshState).1 = 512 ∧
    (validBlock.numBlocks ≠ 0 → validBlock.blockNo < 8 →
      maskBit (uf2_write_block 8 validBlock freshState).2 validBlock.blockNo = true) ∧
    ∀ fid : ℕ,
      uf2_write_block 8 { validBlock with familyID := fid } freshState =
        uf2_write_block 8 validBlock freshState :=
  familyid_value_ignored 8 validBlock freshState (by decide) (by decide) (by decide)
    (by decide) (by decide)

/-! ## C4: writing the same block twice -/

/-- C4 (amended): applying `uf2_write_block` with the same valid block twice
increments `numWritten` in total by exactly as much as a single application
does — which is at most 1, and exactly 1 when the block declares a nonzero
total, its index is within `MAX_BLOCKS`, and its bit was not already set.
The second application leaves both the counter and the bitmask unchanged. -/
theorem write_twice_counts_once (maxBlocks : ℕ) (bl : UF2Block) (s : WriteState)
    (hv : is_uf2_block bl = true) :
    ((uf2_write_block maxBlocks bl ((uf2_write_block maxBlocks bl s).2)).2).numWritten =
      ((uf2_write_block maxBlocks bl s).2).numWritten ∧
    ((uf2_write_block maxBlocks bl ((uf2_write_block maxBlocks bl s).2)).2).writtenMask =
      ((uf2_write_block maxBlocks bl s).2).writtenMask ∧
    ((uf2_write_block maxBlocks bl s).2).numWritten ≤ s.numWritten + 1 ∧
    (bl.numBlocks ≠ 0 → bl.blockNo < maxBlocks → maskBit s bl.blockNo = false →
      ((uf2_write_block maxBlocks bl s).2).numWritten = s.numWritten + 1) := by
  by_cases hT : bl.numBlocks = 0
  · simp [uf2_write_block, hv, hT]
  · have hw : ∀ t : WriteState, (uf2_write_block maxBlocks bl t).2 =
        markWritten maxBlocks bl.blockNo (updateNumBlocks maxBlocks bl.numBlocks t) := by
      intro t
      simp [uf2_write_block, hv, hT]
    set s₁ := (uf2_write_block maxBlocks bl s).2 with hs₁
    have hs1 : s₁ = markWritten maxBlocks bl.blockNo
        (updateNumBlocks maxBlocks bl.numBlocks s) := hw s
    have hs2 : (uf2_write_block maxBlocks bl s₁).2 =
        markWritten maxBlocks bl.blockNo (updateNumBlocks maxBlocks bl.numBlocks s₁) :=
      hw s₁
    by_cases hbn : bl.blockNo < maxBlocks
    · have hbit1 : maskBit s₁ bl.blockNo = true := by
        rw [hs1]
        exact markWritten_maskBit_self _ _ _ hbn
      have hbitu : maskBit (updateNumBlocks maxBlocks bl.numBlocks s₁) bl.blockNo = true := by
        rw [updateNumBlocks_maskBit]; exact hbit1
      have hnoop : markWritten maxBlocks bl.blockNo
          (updateNumBlocks maxBlocks bl.numBlocks s₁) =
          updateNumBlocks maxBlocks bl.numBlocks s₁ :=
        markWritten_eq_of_maskBit_true _ _ _ hbitu
      refine ⟨?_, ?_, ?_, ?_⟩
      · rw [hs2, hnoop, updateNumBlocks_numWritten]
      · rw [hs2, hnoop, updateNumBlocks_writtenMask]
      · rw [hs1, markWritten_numWritten, updateNumBlocks_numWritten]
        split <;> omega
      · intro _ _ hclr
        rw [hs1, markWritten_numWritten, updateNumBlocks_numWritten,
          updateNumBlocks_maskBit]
        simp [hbn, hclr]
    · have hnoop : ∀ t : WriteState, markWritten maxBlocks bl.blockNo t = t := fun t =>
        markWritten_eq_of_ge _ _ _ hbn
      refine ⟨?_, ?_, ?_, ?_⟩
      · rw [hs2, hnoop, updateNumBlocks_numWritten, hs1, hnoop,
          updateNumBlocks_numWritten]
      · rw [hs2, hnoop, updateNumBlocks_writtenMask, hs1, hnoop,
          updateNumBlocks_writtenMask]
      · rw [hs1, hnoop, updateNumBlocks_numWritten]; omega
      · intro _ hbn' _
        exact absurd hbn' hbn

/-- Witness for C4's amended statement at a concrete block and fresh state. -/
theorem write_twice_counts_once_witness :
    ((uf2_write_block 8 validBlock ((uf2_write_block 8 validBlock freshState).2)).2).numWritten =
      ((uf2_write_block 8 validBlock freshState).2).numWritten ∧
    ((uf2_write_block 8 validBlock ((uf2_write_block 8 validBlock freshState).2)).2).writtenMask =
      ((uf2_write_block 8 validBlock freshState).2).writtenMask ∧
    ((uf2_write_block 8 validBlock freshState).2).numWritten ≤ freshState.numWritten + 1 ∧
    (validBlock.numBlocks ≠ 0 → validBlock.blockNo < 8 →
      maskBit freshState validBlock.blockNo = false →
      ((uf2_write_block 8 validBlock freshState).2).numWritten = freshState.numWritten + 1) :=
  write_twice_counts_once 8 validBlock freshState (by decide)

/-- A state in which every mask bit is already set (and `numWritten` is 5). -/
def setState : WriteState :=
  { numBlocks := 0, numWritten := 5, writtenMask := fun _ => 0xff }

/-- Counterexample to C4 as stated: for a valid block whose bit is already
set in the ingestion state, writing it twice increments `numWritten` by 0,
not by exactly 1. -/
theorem write_twice_counts_once_cex :
    ((uf2_write_block 8 validBlock ((uf2_write_block 8 validBlock setState).2)).2).numWritten =
      setState.numWritten ∧
    ((uf2_write_block 8 validBlock ((uf2_write_block 8 validBlock setState).2)).2).numWritten ≠
      setState.numWritten + 1 := by
  decide

/-! ## C6: bit placement and counting for accepted blocks -/

/-- C6 (amended): for every accepted block with a **nonzero** declared total
whose index is within `MAX_BLOCKS`, the written bit is `1 << (blockNo % 8)`
of mask byte `blockNo / 8`; it is set afterwards, and exactly when it was not
already set the mask is updated and `numWritten` is incremented — otherwise
both are left unchanged.  This holds regardless of which nonzero total the
block declares. -/
theorem mark_bit_iff (maxBlocks : ℕ) (bl : UF2Block) (s : WriteState)
    (hv : is_uf2_block bl = true) (hT : bl.numBlocks ≠ 0)
    (hbn : bl.blockNo < maxBlocks) :
    maskBit (uf2_write_block maxBlocks bl s).2 bl.blockNo = true ∧
    (maskBit s bl.blockNo = false →
      ((uf2_write_block maxBlocks bl s).2).numWritten = s.numWritten + 1 ∧
      ((uf2_write_block maxBlocks bl s).2).writtenMask =
        Function.update s.writtenMask (bl.blockNo / 8)
          (s.writtenMask (bl.blockNo / 8) ||| (1 <<< (bl.blockNo % 8)))) ∧
    (maskBit s bl.blockNo = true →
      ((uf2_write_block maxBlocks bl s).2).numWritten = s.numWritten ∧
      ((uf2_write_block maxBlocks bl s).2).writtenMask = s.writtenMask) := by
  have hw : (uf2_write_block maxBlocks bl s).2 =
      markWritten maxBlocks bl.blockNo (updateNumBlocks maxBlocks bl.numBlocks s) := by
    simp [uf2_write_block, hv, hT]
  refine ⟨?_, ?_, ?_⟩
  · rw [hw]
    exact markWritten_maskBit_self _ _ _ hbn
  · intro hclr
    have hclru : maskBit (updateNumBlocks maxBlocks bl.numBlocks s) bl.blockNo = false := by
      rw [updateNumBlocks_maskBit]; exact hclr
    rw [hw, markWritten_eq_of_maskBit_false _ _ _ hbn hclru]
    exact ⟨by rw [updateNumBlocks_numWritten],
      by rw [updateNumBlocks_writtenMask]⟩
  · intro hset
    have hsetu : maskBit (updateNumBlocks maxBlocks bl.numBlocks s) bl.blockNo = true := by
      rw [updateNumBlocks_maskBit]; exact hset
    rw [hw, markWritten_eq_of_maskBit_true _ _ _ hsetu]
    exact ⟨by rw [updateNumBlocks_numWritten], by rw [updateNumBlocks_writtenMask]⟩

/-- Witness for C6's amended statement. -/
theorem mark_bit_iff_witness :
    maskBit (uf2_write_block 8 validBlock freshState).2 validBlock.blockNo = true ∧
    (maskBit freshState validBlock.blockNo = false →
      ((uf2_write_block 8 validBlock freshState).2).numWritten = freshState.numWritten + 1 ∧
      ((uf2_write_block 8 validBlock freshState).2).writtenMask =
        Function.update freshState.writtenMask (validBlock.blockNo / 8)
          (freshState.writtenMask (validBlock.blockNo / 8) ||| (1 <<< (validBlock.blockNo % 8)))) ∧
    (maskBit freshState validBlock.blockNo = true →
      ((uf2_write_block 8 validBlock freshState).2).numWritten = freshState.numWritten ∧
      ((uf2_write_block 8 validBlock freshState).2).writtenMask = freshState.writtenMask) :=
  mark_bit_iff 8 validBlock freshState (by decide) (by decide) (by decide)

/-- An accepted block that declares a zero total-block-count. -/
def zeroTotalBlock : UF2Block :=
  { validBlock with numBlocks := 0, blockNo := 1 }

/-- Counterexample to C6 as stated: an accepted block with declared
total-block-count 0 and in-range index 1, arriving at a fresh state with the
bit clear, sets no bit and increments nothing — the update is *not*
independent of the declared total's value. -/
theorem mark_bit_iff_cex :
    is_uf2_block zeroTotalBlock = true ∧
    zeroTotalBlock.blockNo < 8 ∧
    maskBit freshState zeroTotalBlock.blockNo = false ∧
    maskBit (uf2_write_block 8 zeroTotalBlock freshState).2 zeroTotalBlock.blockNo = false ∧
    ((uf2_write_block 8 zeroTotalBlock freshState).2).numWritten = freshState.numWritten := by
  decide

/-! ## Characterization of a whole write sequence (for C3 and C7) -/

/-- A block is counted in the mask exactly when it passes validation, carries
a nonzero declared total, and its index is within range. -/
def countedBlock (maxBlocks : ℕ) (b : UF2Block) : Bool :=
  is_uf2_block b && (b.numBlocks != 0) && decide (b.blockNo < maxBlocks)

/-- The set of block indices a sequence of incoming blocks records in the
bitmask. -/
def writtenSet (maxBlocks : ℕ) (l : List UF2Block) : Finset ℕ :=
  ((l.filter (countedBlock maxBlocks)).map UF2Block.blockNo).toFinset

theorem runWrites_nil (maxBlocks : ℕ) (s : WriteState) :
    runWrites maxBlocks [] s = s := rfl

theorem runWrites_cons (maxBlocks : ℕ) (b : UF2Block) (l : List UF2Block)
    (s : WriteState) :
    runWrites maxBlocks (b :: l) s =
      runWrites maxBlocks l (uf2_write_block maxBlocks b s).2 := rfl

theorem writtenSet_nil (maxBlocks : ℕ) : writtenSet maxBlocks [] = ∅ := rfl

theorem writtenSet_cons (maxBlocks : ℕ) (b : UF2Block) (l : List UF2Block) :
    writtenSet maxBlocks (b :: l) =
      if countedBlock maxBlocks b = true then
        insert b.blockNo (writtenSet maxBlocks l)
      else writtenSet maxBlocks l := by
  by_cases h : countedBlock maxBlocks b = true <;>
    simp [writtenSet, List.filter_cons, h]

/-- One write's effect on an arbitrary bit of an arbitrary mask byte. -/
theorem step_mask_testBit (maxBlocks : ℕ) (b : UF2Block) (s : WriteState)
    (pos j : ℕ) :
    (((uf2_write_block maxBlocks b s).2).writtenMask pos).testBit j =
      (((s.writtenMask pos).testBit j) ||
        (countedBlock maxBlocks b &&
          decide (pos = b.blockNo / 8 ∧ j = b.blockNo % 8))) := by
  by_cases hv : is_uf2_block b = true
  · by_cases hT : b.numBlocks = 0
    · simp [uf2_write_block, hv, hT, countedBlock]
    · have hw : (uf2_write_block maxBlocks b s).2 =
          markWritten maxBlocks b.blockNo (updateNumBlocks maxBlocks b.numBlocks s) := by
        simp [uf2_write_block, hv, hT]
      rw [hw, markWritten_mask_testBit, updateNumBlocks_writtenMask]
      congr 1
      have hcb : countedBlock maxBlocks b = decide (b.blockNo < maxBlocks) := by
        simp [countedBlock, hv, hT]
      rw [hcb, ← Bool.decide_and, decide_eq_decide]
  · simp [uf2_write_block, hv, countedBlock]

/-- One write's effect on the unique-block counter. -/
theorem step_numWritten (maxBlocks : ℕ) (b : UF2Block) (s : WriteState) :
    ((uf2_write_block maxBlocks b s).2).numWritten =
      s.numWritten +
        (if countedBlock maxBlocks b = true ∧ maskBit s b.blockNo = false
         then 1 else 0) := by
  by_cases hv : is_uf2_block b = true
  · by_cases hT : b.numBlocks = 0
    · simp [uf2_write_block, hv, hT, countedBlock]
    · have hw : (uf2_write_block maxBlocks b s).2 =
          markWritten maxBlocks b.blockNo (updateNumBlocks maxBlocks b.numBlocks s) := by
        simp [uf2_write_block, hv, hT]
      rw [hw, markWritten_numWritten, updateNumBlocks_numWritten,
        updateNumBlocks_maskBit]
      congr 1
      simp [countedBlock, hv, hT]
  · simp [uf2_write_block, hv, countedBlock]

/-- One write's effect on a single mask bit, by block index. -/
theorem step_maskBit (maxBlocks : ℕ) (b : UF2Block) (s : WriteState) (n : ℕ) :
    maskBit ((uf2_write_block maxBlocks b s).2) n =
      (maskBit s n || (countedBlock maxBlocks b && decide (n = b.blockNo))) := by
  unfold maskBit
  rw [step_mask_testBit]
  congr 1
  by_cases hcb : countedBlock maxBlocks b = true
  · simp only [hcb, Bool.true_and, decide_eq_decide]
    omega
  · simp [hcb]

/-- The bitmask after a write sequence, bit by bit: a mask-byte bit is set
exactly when it was set initially or it is the in-byte position of some
recorded block index. -/
theorem runWrites_mask_testBit (maxBlocks : ℕ) (l : List UF2Block)
    (s : WriteState) (pos j : ℕ) :
    (((runWrites maxBlocks l s).writtenMask pos).testBit j) =
      (((s.writtenMask pos).testBit j) ||
        decide (j < 8 ∧ 8 * pos + j ∈ writtenSet maxBlocks l)) := by
  induction l generalizing s with
  | nil => simp [runWrites_nil, writtenSet_nil]
  | cons b l ih =>
    rw [runWrites_cons, ih, step_mask_testBit, writtenSet_cons]
    by_cases hcb : countedBlock maxBlocks b = true
    · simp only [hcb, if_pos, Bool.true_and, Finset.mem_insert]
      cases hbit : (s.writtenMask pos).testBit j
      · simp only [Bool.false_or]
        rw [← Bool.decide_or, decide_eq_decide]
        constructor
        · rintro (⟨hp, hj⟩ | ⟨hj8, hx⟩)
          · exact ⟨by omega, Or.inl (by omega)⟩
          · exact ⟨hj8, Or.inr hx⟩
        · rintro ⟨hj8, hx | hx⟩
          · exact Or.inl ⟨by omega, by omega⟩
          · exact Or.inr ⟨hj8, hx⟩
      · simp
    · simp [hcb]

/-- The unique-block counter after a write sequence: the initial counter plus
the number of recorded block indices whose bits were initially clear. -/
theorem runWrites_numWritten (maxBlocks : ℕ) (l : List UF2Block)
    (s : WriteState) :
    (runWrites maxBlocks l s).numWritten =
      s.numWritten +
        ((writtenSet maxBlocks l).filter (fun n => maskBit s n = false)).card := by
  induction l generalizing s with
  | nil => simp [runWrites_nil, writtenSet_nil]
  | cons b l ih =>
    rw [runWrites_cons, ih, step_numWritten, writtenSet_cons]
    by_cases hcb : countedBlock maxBlocks b = true
    · simp only [hcb, if_pos, true_and]
      have hstep : ∀ n, maskBit ((uf2_write_block maxBlocks b s).2) n =
          (maskBit s n || decide (n = b.blockNo)) := by
        intro n
        rw [step_maskBit]
        simp [hcb]
      have hfilter :
          (writtenSet maxBlocks l).filter
              (fun n => maskBit ((uf2_write_block maxBlocks b s).2) n = false) =
            ((writtenSet maxBlocks l).filter (fun n => maskBit s n = false)).erase
              b.blockNo := by
        ext x
        simp only [Finset.mem_filter, Finset.mem_erase, hstep, Bool.or_eq_false_iff,
          decide_eq_false_iff_not]
        tauto
      rw [hfilter, Finset.filter_insert]
      by_cases hPbn : maskBit s b.blockNo = false
      · simp only [hPbn, if_pos]
        set A := (writtenSet maxBlocks l).filter (fun n => maskBit s n = false) with hA
        by_cases hmem : b.blockNo ∈ A
        · rw [Finset.insert_eq_self.mpr hmem]
          have := Finset.card_erase_add_one hmem
          omega
        · rw [Finset.erase_eq_of_not_mem hmem, Finset.card_insert_of_not_mem hmem]
          omega
      · simp only [hPbn, if_neg, if_false]
        have hnot : b.blockNo ∉
            (writtenSet maxBlocks l).filter (fun n => maskBit s n = false) := by
          simp only [Finset.mem_filter]
          tauto
        rw [Finset.erase_eq_of_not_mem hnot]
        simp [hPbn]
    · have hmb : ∀ n, maskBit ((uf2_write_block maxBlocks b s).2) n = maskBit s n := by
        intro n; rw [step_maskBit]; simp [hcb]
      have hfe : (writtenSet maxBlocks l).filter
            (fun n => maskBit ((uf2_write_block maxBlocks b s).2) n = false) =
          (writtenSet maxBlocks l).filter (fun n => maskBit s n = false) := by
        ext x
        simp [hmb]
      rw [hfe]
      simp [hcb]

/-- Under "all blocks valid with the same declared total `T`", the recorded
index set is determined by the raw block-index set. -/
theorem writtenSet_eq_of_const (maxBlocks T : ℕ) (l : List UF2Block)
    (hv : ∀ b ∈ l, is_uf2_block b = true) (hT : ∀ b ∈ l, b.numBlocks = T) :
    writtenSet maxBlocks l =
      ((l.map UF2Block.blockNo).toFinset).filter (fun n => T ≠ 0 ∧ n < maxBlocks) := by
  ext x
  simp only [writtenSet, List.mem_toFinset, List.mem_map, List.mem_filter,
    Finset.mem_filter]
  constructor
  · rintro ⟨b, ⟨hb, hcb⟩, rfl⟩
    have hbv := hv b hb
    have hbT := hT b hb
    simp only [countedBlock, hbv, Bool.true_and, Bool.and_eq_true, bne_iff_ne,
      ne_eq, decide_eq_true_eq] at hcb
    exact ⟨⟨b, hb, rfl⟩, hbT ▸ hcb.1, hcb.2⟩
  · rintro ⟨⟨b, hb, rfl⟩, hT0, hlt⟩
    refine ⟨b, ⟨hb, ?_⟩, rfl⟩
    simp [countedBlock, hv b hb, hT b hb, hT0, hlt]

/-- The `numBlocks`-learning transition of a single accepted block with
declared total `t`. -/
def nbStep (maxBlocks t x : ℕ) : ℕ :=
  if t = 0 then x
  else if x ≠ t then (if maxBlocks ≤ t ∨ x ≠ 0 then 0xffffffff else t) else x

theorem updateNumBlocks_numBlocks (maxBlocks t : ℕ) (s : WriteState) :
    (updateNumBlocks maxBlocks t s).numBlocks =
      if s.numBlocks ≠ t then
        (if maxBlocks ≤ t ∨ s.numBlocks ≠ 0 then 0xffffffff else t)
      else s.numBlocks := by
  unfold updateNumBlocks
  split <;> [skip; simp_all]
  split <;> simp_all

/-- One valid write's effect on the learned total. -/
theorem step_numBlocks (maxBlocks : ℕ) (b : UF2Block) (s : WriteState)
    (hv : is_uf2_block b = true) :
    ((uf2_write_block maxBlocks b s).2).numBlocks =
      nbStep maxBlocks b.numBlocks s.numBlocks := by
  by_cases hT : b.numBlocks = 0
  · simp [uf2_write_block, hv, hT, nbStep]
  · have hw : (uf2_write_block maxBlocks b s).2 =
        markWritten maxBlocks b.blockNo (updateNumBlocks maxBlocks b.numBlocks s) := by
      simp [uf2_write_block, hv, hT]
    rw [hw, markWritten_numBlocks, updateNumBlocks_numBlocks]
    simp [nbStep, hT]

/-- The learned-total transition is stable: a second identical step changes
nothing. -/
theorem nbStep_idem (maxBlocks t x : ℕ) :
    nbStep maxBlocks t (nbStep maxBlocks t x) = nbStep maxBlocks t x := by
  unfold nbStep
  split_ifs <;> omega

/-- After a nonempty run of valid blocks all declaring total `T`, the learned
total is `nbStep` of the initial one. -/
theorem runWrites_numBlocks_const (maxBlocks T : ℕ) (l : List UF2Block)
    (s : WriteState) (hv : ∀ b ∈ l, is_uf2_block b = true)
    (hT : ∀ b ∈ l, b.numBlocks = T) (hne : l ≠ []) :
    (runWrites maxBlocks l s).numBlocks = nbStep maxBlocks T s.numBlocks := by
  induction l generalizing s with
  | nil => exact absurd rfl hne
  | cons b l ih =>
    rw [runWrites_cons]
    have hs1 : ((uf2_write_block maxBlocks b s).2).numBlocks =
        nbStep maxBlocks T s.numBlocks := by
      rw [step_numBlocks maxBlocks b s (hv b (List.mem_cons_self b l)),
        hT b (List.mem_cons_self b l)]
    by_cases hl : l = []
    · subst hl
      rw [runWrites_nil, hs1]
    · rw [ih _ (fun b hb => hv b (List.mem_cons_of_mem _ hb))
        (fun b hb => hT b (List.mem_cons_of_mem _ hb)) hl, hs1, nbStep_idem]

/-! ## C3: order independence of block ingestion -/

/-- C3: two arrival orders of the same set of distinct valid blocks that all
declare the same total — any permutation, reversal, or interleaving of
duplicates, captured by equality of the underlying block-index sets —
produce the same final written-block bitmask and the same completion result
`numWritten >= numBlocks`.  Ascending-index order is one such order, so every
other order agrees with it. -/
theorem write_order_independent (maxBlocks T : ℕ) (l₁ l₂ : List UF2Block)
    (s : WriteState)
    (hv₁ : ∀ b ∈ l₁, is_uf2_block b = true) (hv₂ : ∀ b ∈ l₂, is_uf2_block b = true)
    (hT₁ : ∀ b ∈ l₁, b.numBlocks = T) (hT₂ : ∀ b ∈ l₂, b.numBlocks = T)
    (hset : (l₁.map UF2Block.blockNo).toFinset = (l₂.map UF2Block.blockNo).toFinset) :
    (runWrites maxBlocks l₁ s).writtenMask = (runWrites maxBlocks l₂ s).writtenMask ∧
    (((runWrites maxBlocks l₁ s).numBlocks ≤ (runWrites maxBlocks l₁ s).numWritten) ↔
      ((runWrites maxBlocks l₂ s).numBlocks ≤ (runWrites maxBlocks l₂ s).numWritten)) := by
  have hws : writtenSet maxBlocks l₁ = writtenSet maxBlocks l₂ := by
    rw [writtenSet_eq_of_const maxBlocks T l₁ hv₁ hT₁,
      writtenSet_eq_of_const maxBlocks T l₂ hv₂ hT₂, hset]
  have hmask : (runWrites maxBlocks l₁ s).writtenMask =
      (runWrites maxBlocks l₂ s).writtenMask := by
    funext pos
    apply Nat.eq_of_testBit_eq
    intro j
    rw [runWrites_mask_testBit, runWrites_mask_testBit, hws]
  have hnw : (runWrites maxBlocks l₁ s).numWritten =
      (runWrites maxBlocks l₂ s).numWritten := by
    rw [runWrites_numWritten, runWrites_numWritten, hws]
  refine ⟨hmask, ?_⟩
  by_cases hne : l₁ = []
  · subst hne
    have h2 : l₂ = [] := by
      have : (l₂.map UF2Block.blockNo).toFinset = ∅ := by
        rw [← hset]; rfl
      rcases List.map_eq_nil_iff.mp (List.toFinset_eq_empty_iff _ |>.mp this) with h
      exact h
    subst h2
    exact Iff.rfl
  · have h2 : l₂ ≠ [] := by
      intro h2
      subst h2
      apply hne
      have : (l₁.map UF2Block.blockNo).toFinset = ∅ := by rw [hset]; rfl
      exact List.map_eq_nil_iff.mp (List.toFinset_eq_empty_iff _ |>.mp this)
    rw [runWrites_numBlocks_const maxBlocks T l₁ s hv₁ hT₁ hne,
      runWrites_numBlocks_const maxBlocks T l₂ s hv₂ hT₂ h2, hnw]

/-- Two further concrete valid blocks for the C3 witness. -/
def validBlock1 : UF2Block := { validBlock with blockNo := 1 }

/-- Witness for C3: `[b0, b1]` versus the reversed order with an interleaved
duplicate `[b1, b0, b1]`, from a fresh session state. -/
theorem write_order_independent_witness :
    (runWrites 8 [validBlock, validBlock1] freshState).writtenMask =
      (runWrites 8 [validBlock1, validBlock, validBlock1] freshState).writtenMask ∧
    (((runWrites 8 [validBlock, validBlock1] freshState).numBlocks ≤
        (runWrites 8 [validBlock, validBlock1] freshState).numWritten) ↔
      ((runWrites 8 [validBlock1, validBlock, validBlock1] freshState).numBlocks ≤
        (runWrites 8 [validBlock1, validBlock, validBlock1] freshState).numWritten)) :=
  write_order_independent 8 2 [validBlock, validBlock1]
    [validBlock1, validBlock, validBlock1] freshState
    (by decide) (by decide) (by decide) (by decide) (by decide)

/-! ## C7: learning the declared total -/

/-- A valid block declaring a total of 20, larger than the sample
`MAX_BLOCKS = 8`. -/
def validBlock20 : UF2Block := { validBlock with numBlocks := 20 }

/-- A valid block declaring a total exactly equal to the sample
`MAX_BLOCKS = 8`. -/
def boundaryBlock : UF2Block := { validBlock with numBlocks := 8 }

/-- The recorded index set only contains indices below `MAX_BLOCKS`. -/
theorem writtenSet_subset_range (maxBlocks : ℕ) (l : List UF2Block) :
    writtenSet maxBlocks l ⊆ Finset.range maxBlocks := by
  intro x hx
  simp only [writtenSet, List.mem_toFinset, List.mem_map, List.mem_filter] at hx
  rcases hx with ⟨b, ⟨_, hcb⟩, rfl⟩
  simp only [countedBlock, Bool.and_eq_true, decide_eq_true_eq] at hcb
  simpa using hcb.2

/-- A write sequence can raise `numWritten` by at most `MAX_BLOCKS`. -/
theorem runWrites_numWritten_le (maxBlocks : ℕ) (l : List UF2Block)
    (s : WriteState) :
    (runWrites maxBlocks l s).numWritten ≤ s.numWritten + maxBlocks := by
  rw [runWrites_numWritten]
  have h1 : ((writtenSet maxBlocks l).filter (fun n => maskBit s n = false)).card ≤
      (writtenSet maxBlocks l).card := Finset.card_filter_le _ _
  have h2 : (writtenSet maxBlocks l).card ≤ (Finset.range maxBlocks).card :=
    Finset.card_le_card (writtenSet_subset_range maxBlocks l)
  rw [Finset.card_range] at h2
  omega

/-- Once the learned total is the sentinel, any further write keeps it. -/
theorem step_numBlocks_sentinel (maxBlocks : ℕ) (b : UF2Block) (t : WriteState)
    (h : t.numBlocks = 0xffffffff) :
    ((uf2_write_block maxBlocks b t).2).numBlocks = 0xffffffff := by
  by_cases hv : is_uf2_block b = true
  · rw [step_numBlocks maxBlocks b t hv, h]
    unfold nbStep
    split_ifs <;> omega
  · simp [uf2_write_block, hv, h]

/-- The sentinel persists across any whole write sequence. -/
theorem runWrites_numBlocks_sentinel (maxBlocks : ℕ) (l : List UF2Block)
    (t : WriteState) (h : t.numBlocks = 0xffffffff) :
    (runWrites maxBlocks l t).numBlocks = 0xffffffff := by
  induction l generalizing t with
  | nil => exact h
  | cons b l ih =>
    rw [runWrites_cons]
    exact ih _ (step_numBlocks_sentinel maxBlocks b t h)

/-- C7 (amended): for an accepted block declaring a nonzero total that
differs from the currently learned one — if a total was already learned
(nonzero) **or the declared total equals or exceeds `MAX_BLOCKS`**, the
learned total becomes the sentinel `0xffffffff`; otherwise it becomes the
declared value.  The sentinel is permanent (no later block can change it),
and as long as the counter has not run away it disables completion detection:
no subsequent write sequence can make `numWritten` reach the learned total. -/
theorem learn_total_update (maxBlocks : ℕ) (bl : UF2Block) (s : WriteState)
    (hv : is_uf2_block bl = true) (hT : bl.numBlocks ≠ 0)
    (hdiff : s.numBlocks ≠ bl.numBlocks) :
    ((maxBlocks ≤ bl.numBlocks ∨ s.numBlocks ≠ 0 →
        ((uf2_write_block maxBlocks bl s).2).numBlocks = 0xffffffff) ∧
      (bl.numBlocks < maxBlocks → s.numBlocks = 0 →
        ((uf2_write_block maxBlocks bl s).2).numBlocks = bl.numBlocks)) ∧
    (∀ t : WriteState, t.numBlocks = 0xffffffff →
      ∀ b' : UF2Block, ((uf2_write_block maxBlocks b' t).2).numBlocks = 0xffffffff) ∧
    (∀ t : WriteState, t.numBlocks = 0xffffffff →
      t.numWritten + maxBlocks < 0xffffffff →
      ∀ l : List UF2Block,
        ¬((runWrites maxBlocks l t).numBlocks ≤ (runWrites maxBlocks l t).numWritten)) := by
  refine ⟨⟨?_, ?_⟩, ?_, ?_⟩
  · intro hcond
    rw [step_numBlocks maxBlocks bl s hv]
    unfold nbStep
    simp only [hT, if_false]
    rw [if_pos hdiff, if_pos hcond]
  · intro hlt hzero
    rw [step_numBlocks maxBlocks bl s hv]
    unfold nbStep
    simp only [hT, if_false]
    rw [if_pos hdiff, if_neg (by omega)]
  · intro t ht b'
    exact step_numBlocks_sentinel maxBlocks b' t ht
  · intro t ht hroom l
    have h1 := runWrites_numBlocks_sentinel maxBlocks l t ht
    have h2 := runWrites_numWritten_le maxBlocks l t
    omega

/-- Witness for C7's amended statement: a concrete oversized declared total
learned from a fresh state. -/
theorem learn_total_update_witness :
    ((8 ≤ validBlock20.numBlocks ∨ freshState.numBlocks ≠ 0 →
        ((uf2_write_block 8 validBlock20 freshState).2).numBlocks = 0xffffffff) ∧
      (validBlock20.numBlocks < 8 → freshState.numBlocks = 0 →
        ((uf2_write_block 8 validBlock20 freshState).2).numBlocks = validBlock20.numBlocks)) ∧
    (∀ t : WriteState, t.numBlocks = 0xffffffff →
      ∀ b' : UF2Block, ((uf2_write_block 8 b' t).2).numBlocks = 0xffffffff) ∧
    (∀ t : WriteState, t.numBlocks = 0xffffffff →
      t.numWritten + 8 < 0xffffffff →
      ∀ l : List UF2Block,
        ¬((runWrites 8 l t).numBlocks ≤ (runWrites 8 l t).numWritten)) :=
  learn_total_update 8 validBlock20 freshState (by decide) (by decide) (by decide)

/-- Counterexample to C7 as stated: the declared total `8` does **not
exceed** `MAX_BLOCKS = 8`, and no total was learned yet, so the claim as
stated demands that the learned total become the declared value `8`; the code
instead stores the sentinel `0xffffffff`. -/
theorem learn_total_update_cex :
    is_uf2_block boundaryBlock = true ∧
    freshState.numBlocks = 0 ∧
    boundaryBlock.numBlocks = 8 ∧
    ((uf2_write_block 8 boundaryBlock freshState).2).numBlocks = 0xffffffff ∧
    ((uf2_write_block 8 boundaryBlock freshState).2).numBlocks ≠
      boundaryBlock.numBlocks := by
  decide

/-! ## FAT table generation (`uf2_read_block`, FAT region)

The 512-byte sector buffer is a function `ℕ → ℕ` from byte index to byte
value, zero-initialised by the `memset`.  The C code writes the media
descriptor byte and the per-file end-of-chain run byte-wise, then stores
16-bit entries through a `uint16_t *` view of the same buffer. -/

/-- `for (i = lo; i < hi; ++i) d[i] = v;` -/
def byteFill (d : ℕ → ℕ) (lo hi v : ℕ) : ℕ → ℕ :=
  fun j => if lo ≤ j ∧ j < hi then v else d j

/-- A little-endian 16-bit store `((uint16_t *) data)[idx] = v;` (the store
narrows to 16 bits). -/
def write16 (d : ℕ → ℕ) (idx v : ℕ) : ℕ → ℕ :=
  fun j =>
    if j = 2 * idx then v % 256
    else if j = 2 * idx + 1 then v / 256 % 256
    else d j

/-- The little-endian 16-bit read `((uint16_t *) data)[idx]`. -/
def read16 (d : ℕ → ℕ) (idx : ℕ) : ℕ :=
  d (2 * idx) + 256 * d (2 * idx + 1)

/-- `UF2_FIRST_SECTOR`: the firmware file's first cluster.  `numFiles` is
`NUM_FILES`; the one-cluster-per-file layout places it right after the
per-file clusters. -/
def UF2_FIRST_SECTOR (numFiles : ℕ) : ℕ :=
  (numFiles + 1) * BPB_SECTORS_PER_CLUSTER

/-- `UF2_LAST_SECTOR`: the firmware file's last cluster, for a firmware image
of `uf2Sectors` 512-byte sectors. -/
def UF2_LAST_SECTOR (numFiles uf2Sectors : ℕ) : ℕ :=
  (UF2_FIRST_SECTOR numFiles + uf2Sectors - 1) * BPB_SECTORS_PER_CLUSTER

/-- The value stored for a cluster `v` inside the firmware chain:
`v == UF2_LAST_SECTOR ? 0xffff : v + 1`, narrowed by the 16-bit store. -/
def fatEntryVal (numFiles uf2Sectors v : ℕ) : ℕ :=
  if v = UF2_LAST_SECTOR numFiles uf2Sectors then 0xffff else (v + 1) % 65536

/-- One iteration of the firmware-chain loop of `uf2_read_block`: entry `i`
of the sector is written when the global cluster number
`v = sectionIdx * 256 + i` lies inside the firmware file's range. -/
def fatLoopStep (numFiles uf2Sectors sectionIdx : ℕ) (d : ℕ → ℕ) (i : ℕ) : ℕ → ℕ :=
  if UF2_FIRST_SECTOR numFiles ≤ sectionIdx * FAT_ENTRIES_PER_SECTOR + i ∧
      sectionIdx * FAT_ENTRIES_PER_SECTOR + i ≤ UF2_LAST_SECTOR numFiles uf2Sectors then
    write16 d i
      (fatEntryVal numFiles uf2Sectors (sectionIdx * FAT_ENTRIES_PER_SECTOR + i))
  else d

/-- The logical-FAT-sector-0 prelude: `data[0]` is the media descriptor byte
and bytes `1 .. NUM_FILES*2 + 2*2 - 1` the `0xff` run (reserved entries plus
one end-of-chain entry per file plus one). -/
def fatSector0Fill (numFiles : ℕ) (d : ℕ → ℕ) : ℕ → ℕ :=
  byteFill (Function.update d 0 BPB_MEDIA_DESCRIPTOR_BYTE) 1
    (numFiles * FAT_ENTRY_SIZE + 2 * FAT_ENTRY_SIZE) 0xff

/-- The byte contents of logical FAT sector `sectionIdx` as generated by
`uf2_read_block`: zeroed buffer, sector-0 prelude when applicable, then the
algebraic firmware-chain loop over all 256 entry positions. -/
def fatSectorBytes (numFiles uf2Sectors sectionIdx : ℕ) : ℕ → ℕ :=
  (List.range FAT_ENTRIES_PER_SECTOR).foldl
    (fatLoopStep numFiles uf2Sectors sectionIdx)
    (if sectionIdx = 0 then fatSector0Fill numFiles (fun _ => 0) else (fun _ => 0))

/-- The FAT-region index normalisation of `uf2_read_block`: subtract the FAT0
start, and fold the second FAT copy onto the first. -/
def fatLogicalSector (totalSectors blockNo : ℕ) : ℕ :=
  if BPB_SECTORS_PER_FAT totalSectors ≤ blockNo - FS_START_FAT0_SECTOR then
    blockNo - FS_START_FAT0_SECTOR - BPB_SECTORS_PER_FAT totalSectors
  else blockNo - FS_START_FAT0_SECTOR

/-- Reading a FAT-region sector: normalise the index, then generate. -/
def readFatSector (totalSectors numFiles uf2Sectors blockNo : ℕ) : ℕ → ℕ :=
  fatSectorBytes numFiles uf2Sectors (fatLogicalSector totalSectors blockNo)

theorem fatEntryVal_lt (numFiles uf2Sectors v : ℕ) :
    fatEntryVal numFiles uf2Sectors v < 65536 := by
  unfold fatEntryVal
  split <;> omega

theorem read16_write16_self (d : ℕ → ℕ) (a v : ℕ) (hv : v < 65536) :
    read16 (write16 d a v) a = v := by
  unfold read16 write16
  have h1 : ¬(2 * a + 1 = 2 * a) := by omega
  simp only [if_pos rfl, h1, if_false, if_true]
  omega

theorem read16_write16_ne (d : ℕ → ℕ) (a v j : ℕ) (h : j ≠ a) :
    read16 (write16 d a v) j = read16 d j := by
  unfold read16 write16
  have h1 : ¬(2 * j = 2 * a) := by omega
  have h2 : ¬(2 * j = 2 * a + 1) := by omega
  have h3 : ¬(2 * j + 1 = 2 * a) := by omega
  have h4 : ¬(2 * j + 1 = 2 * a + 1) := by omega
  simp [h1, h2, h3, h4]

/-- Reading entry `j` after the firmware-chain loop has run over the index
list `l`: the algebraic chain value if `j` was visited and is in range,
otherwise whatever the buffer held. -/
theorem foldl_fatLoopStep_read16 (numFiles uf2Sectors sectionIdx : ℕ)
    (l : List ℕ) (d : ℕ → ℕ) (j : ℕ) :
    read16 (l.foldl (fatLoopStep numFiles uf2Sectors sectionIdx) d) j =
      if j ∈ l ∧ UF2_FIRST_SECTOR numFiles ≤ sectionIdx * FAT_ENTRIES_PER_SECTOR + j ∧
          sectionIdx * FAT_ENTRIES_PER_SECTOR + j ≤ UF2_LAST_SECTOR numFiles uf2Sectors then
        fatEntryVal numFiles uf2Sectors (sectionIdx * FAT_ENTRIES_PER_SECTOR + j)
      else read16 d j := by
  induction l generalizing d with
  | nil => simp
  | cons a l ih =>
    rw [List.foldl_cons, ih]
    by_cases haj : a = j
    · subst haj
      by_cases hcond : UF2_FIRST_SECTOR numFiles ≤
            sectionIdx * FAT_ENTRIES_PER_SECTOR + a ∧
          sectionIdx * FAT_ENTRIES_PER_SECTOR + a ≤ UF2_LAST_SECTOR numFiles uf2Sectors
      · simp only [fatLoopStep, if_pos hcond, List.mem_cons, true_or, true_and,
          if_pos hcond]
        by_cases hmem : a ∈ l
        · simp [hmem, hcond]
        · simp only [hmem, false_and, if_neg, if_false]
          exact read16_write16_self _ _ _ (fatEntryVal_lt _ _ _)
      · simp [fatLoopStep, hcond]
    · have hstep : read16 (fatLoopStep numFiles uf2Sectors sectionIdx d a) j =
          read16 d j := by
        unfold fatLoopStep
        split
        · exact read16_write16_ne _ _ _ _ (fun h => haj h.symm)
        · rfl
      by_cases hj : j ∈ l ∧ UF2_FIRST_SECTOR numFiles ≤
            sectionIdx * FAT_ENTRIES_PER_SECTOR + j ∧
          sectionIdx * FAT_ENTRIES_PER_SECTOR + j ≤ UF2_LAST_SECTOR numFiles uf2Sectors
      · rw [if_pos hj, if_pos ⟨List.mem_cons_of_mem a hj.1, hj.2⟩]
      · rw [if_neg hj, hstep, if_neg ?hneg]
        case hneg =>
          rintro ⟨hm, hc⟩
          rcases List.mem_cons.mp hm with h | h
          · exact haj h.symm
          · exact hj ⟨h, hc⟩

/-- The sector-0 prelude, read back entry-wise: entry 0 is
`0xff00 ||| media descriptor`, entries `1 .. NUM_FILES + 1` are the
end-of-chain marker, everything above is free. -/
theorem read16_fatSector0Fill (numFiles j : ℕ) :
    read16 (fatSector0Fill numFiles (fun _ => 0)) j =
      if j = 0 then 0xfff8 else if j ≤ numFiles + 1 then 0xffff else 0 := by
  unfold fatSector0Fill byteFill read16 FAT_ENTRY_SIZE BPB_MEDIA_DESCRIPTOR_BYTE
  simp only [Function.update_apply]
  split_ifs <;> first | omega | tauto

/-- Full entry-wise characterization of a generated FAT sector. -/
theorem read16_fatSectorBytes (numFiles uf2Sectors sectionIdx j : ℕ)
    (hj : j < 256) :
    read16 (fatSectorBytes numFiles uf2Sectors sectionIdx) j =
      if UF2_FIRST_SECTOR numFiles ≤ sectionIdx * FAT_ENTRIES_PER_SECTOR + j ∧
          sectionIdx * FAT_ENTRIES_PER_SECTOR + j ≤ UF2_LAST_SECTOR numFiles uf2Sectors then
        fatEntryVal numFiles uf2Sectors (sectionIdx * FAT_ENTRIES_PER_SECTOR + j)
      else if sectionIdx = 0 then
        (if j = 0 then 0xfff8 else if j ≤ numFiles + 1 then 0xffff else 0)
      else 0 := by
  unfold fatSectorBytes
  rw [foldl_fatLoopStep_read16]
  have hmem : j ∈ List.range FAT_ENTRIES_PER_SECTOR :=
    List.mem_range.mpr (by simpa [FAT_ENTRIES_PER_SECTOR, BPB_SECTOR_SIZE,
      FAT_ENTRY_SIZE] using hj)
  by_cases hcond : UF2_FIRST_SECTOR numFiles ≤
        sectionIdx * FAT_ENTRIES_PER_SECTOR + j ∧
      sectionIdx * FAT_ENTRIES_PER_SECTOR + j ≤ UF2_LAST_SECTOR numFiles uf2Sectors
  · simp [hmem, hcond]
  · simp only [hmem, true_and, hcond, if_false, if_neg]
    by_cases hs : sectionIdx = 0
    · rw [if_pos hs, if_pos hs, read16_fatSector0Fill]
    · rw [if_neg hs, if_neg hs]
      simp [read16]

/-! ## C1: the algebraic firmware cluster chain -/

/-- C1: for every FAT sector of either FAT copy, with the firmware file
spanning clusters `[F, L]` (`F = NUM_FILES + 1`,
`L = F + uf2Sectors - 1`), the generated 16-bit entry at global cluster `k`
— read entry `k % 256` of the sector whose normalised logical index is
`k / 256` — is `k + 1` for `F ≤ k < L` and the end-of-chain marker `0xffff`
at `k = L`, computed algebraically from the sector index alone.
(`hfit` keeps the chain inside the 16-bit FAT entry space, as the FAT16
cluster-count geometry checks require.) -/
theorem fat_chain_algebraic (totalSectors numFiles uf2Sectors blockNo k : ℕ)
    (hb1 : FS_START_FAT0_SECTOR ≤ blockNo)
    (hb2 : blockNo < FS_START_ROOTDIR_SECTOR totalSectors)
    (hsec : fatLogicalSector totalSectors blockNo = k / 256)
    (hone : 1 ≤ uf2Sectors)
    (hkF : UF2_FIRST_SECTOR numFiles ≤ k)
    (hkL : k ≤ UF2_LAST_SECTOR numFiles uf2Sectors)
    (hfit : UF2_LAST_SECTOR numFiles uf2Sectors < 0xffff) :
    read16 (readFatSector totalSectors numFiles uf2Sectors blockNo) (k % 256) =
      if k = UF2_LAST_SECTOR numFiles uf2Sectors then 0xffff else k + 1 := by
  unfold readFatSector
  rw [hsec, read16_fatSectorBytes _ _ _ _ (Nat.mod_lt _ (by norm_num))]
  have heps : FAT_ENTRIES_PER_SECTOR = 256 := rfl
  have hv : k / 256 * FAT_ENTRIES_PER_SECTOR + k % 256 = k := by
    rw [heps]
    omega
  rw [hv, if_pos ⟨hkF, hkL⟩]
  unfold fatEntryVal
  by_cases hlast : k = UF2_LAST_SECTOR numFiles uf2Sectors
  · rw [if_pos hlast, if_pos hlast]
  · rw [if_neg hlast, if_neg hlast, Nat.mod_eq_of_lt (by omega)]

/-- Witness for C1: total sectors 8192 (so 32 sectors per FAT), the concrete
3-file table, a 100-sector firmware image (clusters `[4, 103]`), read through
the **second** FAT copy (`blockNo = 33` normalises to logical sector 0), at
global cluster 50. -/
theorem fat_chain_algebraic_witness :
    read16 (readFatSector 8192 3 100 33) (50 % 256) =
      if 50 = UF2_LAST_SECTOR 3 100 then 0xffff else 50 + 1 :=
  fat_chain_algebraic 8192 3 100 33 50 (by decide) (by decide) (by decide)
    (by decide) (by decide) (by decide) (by decide)

/-! ## The file table and the root directory generator -/

/-- `struct TextFile`: an 8.3 name and either inline content or `NULL`
(the synthesized firmware file marker). -/
structure TextFile where
  name : String
  content : Option String
deriving DecidableEq, Repr

instance : Inhabited TextFile := ⟨⟨"", none⟩⟩

/-- `infoUf2File` (the build strings of ghostfat.c, concatenated). -/
def infoUf2File : String :=
  "UF2 Bootloader 0.0.0\r\nModel: Espressif saola\r\nBoard-ID: adafruit-test-board\r\n"

/-- `indexFile`. -/
def indexFile : String :=
  "<!doctype html>\n<html><body><script>\nlocation.replace(\"https://adafruit.com\");\n</script></body></html>\n"

/-- The static `info[]` file table; `CURRENT UF2` is the firmware marker and
is last. -/
def info : List TextFile :=
  [{ name := "INFO_UF2TXT", content := some infoUf2File },
   { name := "INDEX   HTM", content := some indexFile },
   { name := "CURRENT UF2", content := none }]

def NUM_FILES : ℕ := info.length

def UF2_VOLUME_LABEL : String := "ESP32SBOOT"

/-- `UF2_SECTORS = image size / UF2_FIRMWARE_BYTES_PER_SECTOR`.  The image
size stands for `_part_ota0->size` (the flash collaborator's reported size,
not in src/; modelled from the spec §6). -/
def UF2_SECTORS (imageSize : ℕ) : ℕ :=
  imageSize / UF2_FIRMWARE_BYTES_PER_SECTOR

/-- `UF2_SIZE = UF2_SECTORS * 512`: the synthesized firmware file's byte
length, as declared in its directory entry. -/
def UF2_SIZE (imageSize : ℕ) : ℕ :=
  UF2_SECTORS imageSize * BPB_SECTOR_SIZE

/-- The 32-byte on-disk directory entry, field for field. -/
structure DirEntry where
  name : List Char
  attrs : ℕ
  reserved : ℕ
  createTimeFine : ℕ
  createTime : ℕ
  createDate : ℕ
  lastAccessDate : ℕ
  highStartCluster : ℕ
  updateTime : ℕ
  updateDate : ℕ
  startCluster : ℕ
  size : ℕ
deriving DecidableEq, Repr

/-- A zero-filled (end-of-directory) entry, as the `memset` leaves it. -/
def zeroDirEntry : DirEntry :=
  { name := [], attrs := 0, reserved := 0, createTimeFine := 0, createTime := 0,
    createDate := 0, lastAccessDate := 0, highStartCluster := 0, updateTime := 0,
    updateDate := 0, startCluster := 0, size := 0 }

/-- `padded_memcpy`: copy `len` characters, space-padding once the source
string is exhausted. -/
def padded_memcpy (src : String) (len : ℕ) : List Char :=
  src.toList.take len ++ List.replicate (len - src.length) ' '

/-- The build-date collaborator (`compile_date.h`, not in src/; modelled from
the spec §6: a fixed build date/time used for all synthesized directory
timestamps). -/
structure BuildDate where
  dosTime : ℕ
  dosDate : ℕ
  seconds : ℕ

/-- The volume-label entry placed in the first slot of directory sector 0. -/
def volumeLabelEntry : DirEntry :=
  { zeroDirEntry with name := padded_memcpy UF2_VOLUME_LABEL 11, attrs := 0x28 }

/-- The directory entry generated for file-table index `i`:
`startCluster = i + 2` (narrowed through the `uint16_t` local and the
`& 0xFFFF` / `>> 16` split), and `size` from the content (or `UF2_SIZE` for
the firmware marker). -/
def fileDirEntry (table : List TextFile) (uf2Size : ℕ) (bd : BuildDate)
    (i : ℕ) : DirEntry :=
  { zeroDirEntry with
    name := padded_memcpy (table.getD i default).name 11,
    createTimeFine := bd.seconds % 2 * 100,
    createTime := bd.dosTime,
    createDate := bd.dosDate,
    lastAccessDate := bd.dosDate,
    highStartCluster := (i + 2) % 65536 >>> 16,
    updateTime := bd.dosTime,
    updateDate := bd.dosDate,
    startCluster := (i + 2) % 65536 &&& 0xffff,
    size := match (table.getD i default).content with
            | some c => c.length
            | none => uf2Size }

/-- The entry-filling loop of the root-directory branch of `uf2_read_block`:
emit entries while slots remain and file indices are left. -/
def rootDirLoop (table : List TextFile) (uf2Size : ℕ) (bd : BuildDate) :
    ℕ → ℕ → List DirEntry
  | _, 0 => []
  | i, remaining + 1 =>
    if i < table.length then
      fileDirEntry table uf2Size bd i ::
        rootDirLoop table uf2Size bd (i + 1) remaining
    else []

/-- A generated root-directory sector, as the list of its non-zero entries
(the remaining slots of the 16-entry sector stay zero-filled). -/
def rootDirSector (table : List TextFile) (uf2Size : ℕ) (bd : BuildDate)
    (sectionIdx : ℕ) : List DirEntry :=
  if sectionIdx = 0 then
    volumeLabelEntry ::
      rootDirLoop table uf2Size bd (DIRENTRIES_PER_SECTOR * sectionIdx)
        (DIRENTRIES_PER_SECTOR - 1)
  else
    rootDirLoop table uf2Size bd (DIRENTRIES_PER_SECTOR * sectionIdx)
      DIRENTRIES_PER_SECTOR

/-! ## C2: non-firmware files in the directory and the FAT -/

/-- C2: for every non-firmware file-table entry `i` (content present), the
root directory sector holds, right after the volume label, a directory entry
with starting cluster `i + 2` and size equal to the content's length, and
logical FAT sector 0 carries the end-of-chain marker at entry `i + 2`. -/
theorem nonfirmware_dir_and_fat (uf2Sectors uf2Size : ℕ) (bd : BuildDate)
    (i : ℕ) (c : String)
    (hc : (info.getD i default).content = some c) :
    ((rootDirSector info uf2Size bd 0).getD (i + 1) zeroDirEntry).startCluster = i + 2 ∧
    ((rootDirSector info uf2Size bd 0).getD (i + 1) zeroDirEntry).size = c.length ∧
    read16 (fatSectorBytes NUM_FILES uf2Sectors 0) (i + 2) = 0xffff := by
  have hi : i = 0 ∨ i = 1 := by
    rcases Nat.lt_or_ge i 3 with h3 | h3
    · interval_cases i
      · exact Or.inl rfl
      · exact Or.inr rfl
      · exact absurd hc (by simp [info])
    · rw [List.getD_eq_default] at hc
      · exact absurd hc (by simp)
      · simpa [info] using h3
  have hfat : ∀ j : ℕ, 1 ≤ j → j ≤ 3 →
      read16 (fatSectorBytes NUM_FILES uf2Sectors 0) j = 0xffff := by
    intro j hj1 hj3
    rw [read16_fatSectorBytes NUM_FILES uf2Sectors 0 j (by omega)]
    have hF : UF2_FIRST_SECTOR NUM_FILES = 4 := rfl
    rw [if_neg (by rw [hF]; omega), if_pos rfl, if_neg (by omega),
      if_pos (by simp [NUM_FILES, info]; omega)]
  rcases hi with rfl | rfl
  · obtain rfl : infoUf2File = c := by simpa [info] using hc
    have hentry : (rootDirSector info uf2Size bd 0).getD 1 zeroDirEntry =
        fileDirEntry info uf2Size bd 0 := by
      simp [rootDirSector, rootDirLoop, DIRENTRIES_PER_SECTOR, BPB_SECTOR_SIZE, info]
    refine ⟨?_, ?_, hfat 2 (by omega) (by omega)⟩
    · rw [hentry]
      show (0 + 2) % 65536 &&& 0xffff = 0 + 2
      decide
    · rw [hentry]
      simp [fileDirEntry, info]
  · obtain rfl : indexFile = c := by simpa [info] using hc
    have hentry : (rootDirSector info uf2Size bd 0).getD 2 zeroDirEntry =
        fileDirEntry info uf2Size bd 1 := by
      simp [rootDirSector, rootDirLoop, DIRENTRIES_PER_SECTOR, BPB_SECTOR_SIZE, info]
    refine ⟨?_, ?_, hfat 3 (by omega) (by omega)⟩
    · rw [hentry]
      show (1 + 2) % 65536 &&& 0xffff = 1 + 2
      decide
    · rw [hentry]
      simp [fileDirEntry, info]

/-- Witness for C2 at file index 0 (`INFO_UF2.TXT`). -/
theorem nonfirmware_dir_and_fat_witness :
    ((rootDirSector info 512 ⟨0, 0, 0⟩ 0).getD 1 zeroDirEntry).startCluster = 0 + 2 ∧
    ((rootDirSector info 512 ⟨0, 0, 0⟩ 0).getD 1 zeroDirEntry).size = infoUf2File.length ∧
    read16 (fatSectorBytes NUM_FILES 1 0) (0 + 2) = 0xffff :=
  nonfirmware_dir_and_fat 1 512 ⟨0, 0, 0⟩ 0 infoUf2File (by decide)

/-! ## The data-region reader (`uf2_read_block`, cluster region) -/

/-- What a data-region sector holds after `uf2_read_block`: the zeroed buffer
(memset only), a text file's content, or a synthesized UF2 packet. -/
inductive DataSector where
  | zero : DataSector
  | text : String → DataSector
  | packet : UF2Block → DataSector
deriving DecidableEq, Repr

/-- Modelled from the spec: the read-path configuration not under src/ — the
flash-image bound `CFG_UF2_FLASH_SIZE`, identified with the flash
collaborator's reported total size `_part_ota0->size` (the spec treats both
as "the configured flash-image bound", §4.5/§6), and the configured family
identifier `CFG_UF2_FAMILY_ID`. -/
structure UF2ReadCfg where
  imageSize : ℕ
  familyID : ℕ

/-- The cluster-region branch of `uf2_read_block`, for data-region sector
`sectionIdx` (the cluster-region offset): non-firmware files' single
clusters are copied verbatim; the rest of the region synthesizes a UF2
packet from flash when `addr = sectionIdx' * 256` is within the image bound,
and leaves the sector zero otherwise.  `flash` is the flash collaborator's
byte-read. -/
def uf2_read_data_sector (table : List TextFile) (cfg : UF2ReadCfg)
    (flash : ℕ → ℕ) (sectionIdx : ℕ) : DataSector :=
  if sectionIdx < table.length - 1 then
    DataSector.text ((table.getD sectionIdx default).content.getD "")
  else
    if USER_FLASH_START + (sectionIdx - (table.length - 1)) * UF2_FIRMWARE_BYTES_PER_SECTOR <
        cfg.imageSize then
      DataSector.packet
        { magicStart0 := UF2_MAGIC_START0
          magicStart1 := UF2_MAGIC_START1
          magicEnd := UF2_MAGIC_END
          blockNo := sectionIdx - (table.length - 1)
          numBlocks := UF2_SECTORS cfg.imageSize
          targetAddr := USER_FLASH_START +
            (sectionIdx - (table.length - 1)) * UF2_FIRMWARE_BYTES_PER_SECTOR
          payloadSize := UF2_FIRMWARE_BYTES_PER_SECTOR
          flags := UF2_FLAG_FAMILYID
          familyID := cfg.familyID
          data := (List.range UF2_FIRMWARE_BYTES_PER_SECTOR).map
            (fun j => flash (USER_FLASH_START +
              (sectionIdx - (table.length - 1)) * UF2_FIRMWARE_BYTES_PER_SECTOR + j) % 256) }
    else DataSector.zero

/-- Little-endian 32-bit serialisation. -/
def le32 (v : ℕ) : List ℕ :=
  [v % 256, v / 256 % 256, v / 65536 % 256, v / 16777216 % 256]

/-- Truncate or zero-pad a byte list to length `n` (the sector buffer starts
zeroed). -/
def padTo (l : List ℕ) (n : ℕ) : List ℕ :=
  l.take n ++ List.replicate (n - l.length) 0

def strBytes (s : String) : List ℕ := s.toList.map Char.toNat

/-- The 512-byte wire image of a UF2 packet: eight little-endian header
words, the 476-byte payload area, the trailing magic. -/
def uf2BlockBytes (b : UF2Block) : List ℕ :=
  le32 b.magicStart0 ++ le32 b.magicStart1 ++ le32 b.flags ++ le32 b.targetAddr ++
    le32 b.payloadSize ++ le32 b.blockNo ++ le32 b.numBlocks ++ le32 b.familyID ++
    padTo b.data 476 ++ le32 b.magicEnd

/-- The 512 bytes of a data-region sector. -/
def dataSectorBytes : DataSector → List ℕ
  | DataSector.zero => List.replicate BPB_SECTOR_SIZE 0
  | DataSector.text c => padTo (strBytes c) BPB_SECTOR_SIZE
  | DataSector.packet b => uf2BlockBytes b

def DataSector.isPacket : DataSector → Bool
  | DataSector.packet _ => true
  | _ => false

/-! ## C8: out-of-bounds reads are zero-filled, and the packet count matches
the declared directory size -/

/-- C8: (a) every data-region sector whose computed flash source address is
at or beyond the flash-image bound reads back as 512 zero bytes; (b) the
number of data-region sectors that synthesize an upload packet equals the
firmware file's declared directory size (`UF2_SIZE`) divided by the sector
size; (c) those packet sectors are non-zero.  `halign` is the chunk
alignment of the flash image, `hcap` says the emulated volume's data region
is large enough to expose the whole image. -/
theorem data_region_bounds (totalSectors : ℕ) (cfg : UF2ReadCfg) (flash : ℕ → ℕ)
    (halign : UF2_FIRMWARE_BYTES_PER_SECTOR ∣ cfg.imageSize)
    (hcap : NUM_FILES - 1 + UF2_SECTORS cfg.imageSize ≤
      NUM_SECTORS_IN_DATA_REGION totalSectors) :
    (∀ sectionIdx : ℕ, NUM_FILES - 1 ≤ sectionIdx →
      cfg.imageSize ≤ USER_FLASH_START +
        (sectionIdx - (NUM_FILES - 1)) * UF2_FIRMWARE_BYTES_PER_SECTOR →
      dataSectorBytes (uf2_read_data_sector info cfg flash sectionIdx) =
        List.replicate BPB_SECTOR_SIZE 0) ∧
    ((Finset.range (NUM_SECTORS_IN_DATA_REGION totalSectors)).filter
        (fun sIdx => (uf2_read_data_sector info cfg flash sIdx).isPacket = true)).card =
      UF2_SIZE cfg.imageSize / BPB_SECTOR_SIZE ∧
    (∀ sectionIdx : ℕ,
      (uf2_read_data_sector info cfg flash sectionIdx).isPacket = true →
      dataSectorBytes (uf2_read_data_sector info cfg flash sectionIdx) ≠
        List.replicate BPB_SECTOR_SIZE 0) := by
  obtain ⟨q, hq⟩ := halign
  have hlen : info.length = 3 := rfl
  have hnumf : NUM_FILES = 3 := rfl
  have hchunk : UF2_FIRMWARE_BYTES_PER_SECTOR = 256 := rfl
  have hflash0 : USER_FLASH_START = 0 := rfl
  have hm : UF2_SECTORS cfg.imageSize = q := by
    unfold UF2_SECTORS
    rw [hq, hchunk]
    omega
  refine ⟨?_, ?_, ?_⟩
  · intro sectionIdx hge hbeyond
    rw [hnumf] at hge
    rw [hnumf, hchunk, hflash0] at hbeyond
    have h1 : ¬sectionIdx < info.length - 1 := by
      rw [hlen]
      omega
    have h2 : ¬(USER_FLASH_START +
        (sectionIdx - (info.length - 1)) * UF2_FIRMWARE_BYTES_PER_SECTOR <
          cfg.imageSize) := by
      rw [hlen, hchunk, hflash0]
      omega
    rw [uf2_read_data_sector, if_neg h1, if_neg h2]
    rfl
  · have hpred : ∀ x ∈ Finset.range (NUM_SECTORS_IN_DATA_REGION totalSectors),
        ((uf2_read_data_sector info cfg flash x).isPacket = true) ↔
          (2 ≤ x ∧ x < 2 + q) := by
      intro x _
      unfold uf2_read_data_sector
      by_cases hx : x < info.length - 1
      · rw [if_pos hx]
        rw [hlen] at hx
        simp only [DataSector.isPacket]
        constructor
        · intro h
          exact absurd h (by simp)
        · intro h
          exact absurd h (by omega)
      · rw [if_neg hx]
        rw [hlen] at hx
        by_cases haddr : USER_FLASH_START +
            (x - (info.length - 1)) * UF2_FIRMWARE_BYTES_PER_SECTOR < cfg.imageSize
        · rw [if_pos haddr]
          rw [hlen, hq, hchunk, hflash0] at haddr
          simp only [DataSector.isPacket]
          constructor
          · intro _
            omega
          · intro _
            trivial
        · rw [if_neg haddr]
          rw [hlen, hq, hchunk, hflash0] at haddr
          simp only [DataSector.isPacket]
          constructor
          · intro h
            exact absurd h (by simp)
          · intro h
            exact absurd h (by omega)
    rw [Finset.filter_congr hpred]
    have hival : (Finset.range (NUM_SECTORS_IN_DATA_REGION totalSectors)).filter
        (fun x => 2 ≤ x ∧ x < 2 + q) = Finset.Ico 2 (2 + q) := by
      ext x
      simp only [Finset.mem_filter, Finset.mem_range, Finset.mem_Ico]
      have hcap' : 2 + q ≤ NUM_SECTORS_IN_DATA_REGION totalSectors := by
        rw [hm, hnumf] at hcap
        omega
      omega
    rw [hival, Nat.card_Ico]
    unfold UF2_SIZE BPB_SECTOR_SIZE
    rw [hm]
    omega
  · intro sectionIdx hpk
    unfold uf2_read_data_sector at hpk ⊢
    by_cases hx : sectionIdx < info.length - 1
    · rw [if_pos hx] at hpk
      exact absurd hpk (by simp [DataSector.isPacket])
    · rw [if_neg hx] at hpk ⊢
      by_cases haddr : USER_FLASH_START +
          (sectionIdx - (info.length - 1)) * UF2_FIRMWARE_BYTES_PER_SECTOR <
            cfg.imageSize
      · rw [if_pos haddr]
        intro heq
        have h0 := congrArg (fun l => l.getD 0 0) heq
        have hrep : (List.replicate 512 (0 : ℕ)).getD 0 0 = 0 := by
          rw [List.getD_eq_getElem?_getD, List.getElem?_replicate]
          norm_num
        simp only [dataSectorBytes] at h0
        rw [show BPB_SECTOR_SIZE = 512 from rfl, hrep] at h0
        exact absurd h0 (by norm_num [uf2BlockBytes, le32, UF2_MAGIC_START0])
      · rw [if_neg haddr] at hpk
        exact absurd hpk (by simp [DataSector.isPacket])

/-- Witness for C8: an 8192-sector volume and a 1 KiB (4-chunk) flash
image. -/
theorem data_region_bounds_witness :
    (∀ sectionIdx : ℕ, NUM_FILES - 1 ≤ sectionIdx →
      (1024 : ℕ) ≤ USER_FLASH_START +
        (sectionIdx - (NUM_FILES - 1)) * UF2_FIRMWARE_BYTES_PER_SECTOR →
      dataSectorBytes (uf2_read_data_sector info ⟨1024, 0⟩ (fun _ => 0) sectionIdx) =
        List.replicate BPB_SECTOR_SIZE 0) ∧
    ((Finset.range (NUM_SECTORS_IN_DATA_REGION 8192)).filter
        (fun sIdx =>
          (uf2_read_data_sector info ⟨1024, 0⟩ (fun _ => 0) sIdx).isPacket = true)).card =
      UF2_SIZE 1024 / BPB_SECTOR_SIZE ∧
    (∀ sectionIdx : ℕ,
      (uf2_read_data_sector info ⟨1024, 0⟩ (fun _ => 0) sectionIdx).isPacket = true →
      dataSectorBytes (uf2_read_data_sector info ⟨1024, 0⟩ (fun _ => 0) sectionIdx) ≠
        List.replicate BPB_SECTOR_SIZE 0) :=
  data_region_bounds 8192 ⟨1024, 0⟩ (fun _ => 0) (by decide) (by decide)

end GhostFAT
